import Mathlib

/-! Verification development for the streaming chat relay of the Kashif's-AI
web application.  The definitions below are a shallow embedding of

* the client stream-decoding loop `streamChat` in
  `src/components/chat/ChatInterface.tsx` (lines 85-225), and
* the chat proxy edge function (`serve` handler, unnamed source file,
  lines 10-137).

Character strings are modelled as `List Char`; the platform primitives
`JSON.parse` (together with the `choices[0].delta.content` extraction) and
`fetch`/`supabase` are modelled as explicit parameters/inputs, and
`TextDecoder` is modelled by an incremental UTF-8 byte automaton. -/

/-- Character strings are modelled as lists of characters. -/
abbrev Str := List Char

/-- Convert a Lean string literal into the character-list model. -/
def str (s : String) : Str := s.toList

/-- Boolean test that `p` is an initial segment of `s`
(models JavaScript `s.startsWith(p)`). -/
def startsWith : Str → Str → Bool
  | [], _ => true
  | _ :: _, [] => false
  | p :: ps, s :: ss => p == s && startsWith ps ss

/-- Whitespace characters stripped by JavaScript `String.prototype.trim`
(restricted to the ASCII whitespace that can occur in this protocol). -/
def isWS (c : Char) : Bool :=
  c == ' ' || c == '\t' || c == '\n' || c == '\r' || c == '\x0b' || c == '\x0c'

/-- Model of JavaScript `s.trim()`: strip whitespace from both ends. -/
def trimChars (l : Str) : Str :=
  ((l.dropWhile isWS).reverse.dropWhile isWS).reverse

/-- Model of `if (line.endsWith("\r")) line = line.slice(0, -1)`
(ChatInterface.tsx line 171): drop a single trailing carriage return. -/
def stripCR (l : Str) : Str :=
  match l.getLast? with
  | some c => if c = '\r' then l.dropLast else l
  | none => l

/-- Model of `textBuffer.indexOf("\n")` plus the two `slice` calls
(ChatInterface.tsx lines 167-169): split the buffer at the first newline,
returning the line (newline excluded) and the remaining buffer. -/
def lineSplit : Str → Option (Str × Str)
  | [] => none
  | c :: cs =>
    if c = '\n' then some ([], cs)
    else
      match lineSplit cs with
      | some (l, r) => some (c :: l, r)
      | none => none

/-- The client message roles (`"user" | "assistant"` in ChatInterface.tsx). -/
inductive Role where
  | user
  | assistant
deriving DecidableEq

/-- An uploaded file's analysis (`UploadedFile.analysis` in ChatInterface.tsx). -/
structure Analysis where
  topic : Str
  subtopics : List Str
  summary : Str
deriving DecidableEq

/-- An uploaded file (`UploadedFile` in ChatInterface.tsx; the fields not used
by `streamChat` are omitted). -/
structure UFile where
  name : Str
  analysis : Option Analysis
deriving DecidableEq

/-- A client-side chat message (`Message` in ChatInterface.tsx). -/
structure Msg where
  role : Role
  content : Str
  files : List UFile := []
  audioContent : Option Str := none
deriving DecidableEq

/-- The mutable state of the decode loop in `streamChat`
(ChatInterface.tsx lines 156-158): the text buffer, the accumulated
assistant content, the `messages` React state, and the `streamDone` flag. -/
structure DecodeState where
  textBuffer : Str
  assistantContent : Str
  msgs : List Msg
  streamDone : Bool
deriving DecidableEq

/-- The literal prefix `"data: "` checked at ChatInterface.tsx line 173. -/
def dataTag : Str := str "data: "

/-- The terminal payload `"[DONE]"` checked at ChatInterface.tsx line 176. -/
def doneTag : Str := str "[DONE]"

/-- Classification of one complete decoded line, mirroring the branch
structure of the inner loop body (ChatInterface.tsx lines 171-199).
The parameter `parse` models `JSON.parse` combined with the extraction
`parsed.choices?.[0]?.delta?.content`: `none` means `JSON.parse` throws,
`some none` means it parses but yields no content field, and
`some (some c)` means it yields the content string `c`. -/
inductive LineClass where
  | skip
  | delta (c : Str)
  | done
  | push
deriving DecidableEq

/-- Classify one raw line exactly as the inner loop body does. -/
def classifyLine (parse : Str → Option (Option Str)) (line0 : Str) : LineClass :=
  let line := stripCR line0
  if startsWith (str ":") line || trimChars line == [] then .skip
  else if !startsWith dataTag line then .skip
  else
    let jsonStr := trimChars (line.drop 6)
    if jsonStr = doneTag then .done
    else
      match parse jsonStr with
      | none => .push
      | some none => .skip
      | some (some c) => if c = [] then .skip else .delta c

/-- The `setMessages` update applied on a content delta
(ChatInterface.tsx lines 186-194): if the last message is an assistant
message, replace only its content with the new accumulated string;
otherwise append a fresh assistant message. -/
def pushAssistant (msgs : List Msg) (newAcc : Str) : List Msg :=
  match msgs.getLast? with
  | some m =>
    if m.role = Role.assistant then
      msgs.dropLast ++ [{ m with content := newAcc }]
    else msgs ++ [{ role := Role.assistant, content := newAcc }]
  | none => msgs ++ [{ role := Role.assistant, content := newAcc }]

/-- Apply one content delta (ChatInterface.tsx lines 184-194):
`assistantContent += content` followed by the `setMessages` update. -/
def applyDelta (st : DecodeState) (c : Str) : DecodeState :=
  let newAcc := st.assistantContent ++ c
  { st with assistantContent := newAcc, msgs := pushAssistant st.msgs newAcc }

/-- The inner `while ((newlineIndex = textBuffer.indexOf("\n")) !== -1)` loop
(ChatInterface.tsx lines 167-200).  Each iteration removes one line from the
buffer; on `[DONE]` it sets the `streamDone` flag and breaks, and on a line
whose payload fails to parse it pushes the (carriage-return-stripped) line
back with its newline restored and breaks (line 197).  The `fuel` argument
is a proof artifact bounding the number of iterations; `fuel` at least the
buffer length always suffices because every iteration consumes at least one
buffer character. -/
def drain (parse : Str → Option (Option Str)) : Nat → DecodeState → DecodeState
  | 0, st => st
  | fuel + 1, st =>
    match lineSplit st.textBuffer with
    | none => st
    | some (line0, rest) =>
      match classifyLine parse line0 with
      | .skip => drain parse fuel { st with textBuffer := rest }
      | .delta c => drain parse fuel (applyDelta { st with textBuffer := rest } c)
      | .done => { st with textBuffer := rest, streamDone := true }
      | .push => { st with textBuffer := stripCR line0 ++ '\n' :: rest }

/-- One iteration of the outer read loop after a chunk arrives
(ChatInterface.tsx lines 160-201): append the decoded chunk text to the
buffer, then drain complete lines. -/
def feedChunk (parse : Str → Option (Option Str)) (st : DecodeState) (chunk : Str) :
    DecodeState :=
  let buf := st.textBuffer ++ chunk
  drain parse (buf.length) { st with textBuffer := buf }

/-- The outer `while (!streamDone)` read loop over the sequence of decoded
text chunks delivered by the reader (ChatInterface.tsx lines 160-201).
When the chunk list is exhausted the reader reports `done` and the loop
breaks with the current state. -/
def runChunks (parse : Str → Option (Option Str)) :
    DecodeState → List Str → DecodeState
  | st, [] => st
  | st, c :: cs =>
    if st.streamDone then st
    else runChunks parse (feedChunk parse st c) cs

/-- Initial decode state (ChatInterface.tsx lines 156-158) over the current
`messages` React state. -/
def initState (msgs0 : List Msg) : DecodeState :=
  { textBuffer := [], assistantContent := [], msgs := msgs0, streamDone := false }

/-! ### The `TextDecoder` model

`new TextDecoder()` with `decode(value, \x7bstream: true\x7d)` decodes UTF-8
bytes incrementally, carrying an incomplete multi-byte sequence over to the
next chunk.  This is modelled by a byte-at-a-time automaton: the carried
state is the number of continuation bytes still expected plus the partial
scalar value accumulated so far. -/

/-- Carried state of the incremental UTF-8 decoder: `need` continuation
bytes are still expected and `acc` holds the partial scalar value. -/
structure U8 where
  need : Nat
  acc : Nat
deriving DecidableEq

/-- Initial UTF-8 decoder state (no pending bytes). -/
def u8Init : U8 := { need := 0, acc := 0 }

/-- Feed one byte to the incremental UTF-8 decoder, returning the new state
and the characters emitted.  Invalid sequences emit the replacement
character U+FFFD, as `TextDecoder` does in its default non-fatal mode. -/
def utf8Step (s : U8) (b : Nat) : U8 × List Char :=
  match s.need with
  | 0 =>
    if b < 0x80 then (u8Init, [Char.ofNat b])
    else if 0xC0 ≤ b ∧ b < 0xE0 then ({ need := 1, acc := b - 0xC0 }, [])
    else if 0xE0 ≤ b ∧ b < 0xF0 then ({ need := 2, acc := b - 0xE0 }, [])
    else if 0xF0 ≤ b ∧ b < 0xF8 then ({ need := 3, acc := b - 0xF0 }, [])
    else (u8Init, ['�'])
  | n + 1 =>
    if 0x80 ≤ b ∧ b < 0xC0 then
      let acc := s.acc * 64 + (b - 0x80)
      if n = 0 then (u8Init, [Char.ofNat acc]) else ({ need := n, acc := acc }, [])
    else (u8Init, ['�'])

/-- Decode one byte chunk with the incremental decoder, returning the carried
state and the text produced (models `decoder.decode(value, \x7bstream: true\x7d)`
at ChatInterface.tsx line 164). -/
def utf8DecodeChunk (s : U8) : List Nat → U8 × Str
  | [] => (s, [])
  | b :: bs =>
    let p := utf8Step s b
    let q := utf8DecodeChunk p.1 bs
    (q.1, p.2 ++ q.2)

/-- UTF-8 encoding of one character as a byte list. -/
def utf8EncodeChar (c : Char) : List Nat :=
  let n := c.toNat
  if n < 0x80 then [n]
  else if n < 0x800 then [0xC0 + n / 64, 0x80 + n % 64]
  else if n < 0x10000 then [0xE0 + n / 4096, 0x80 + n / 64 % 64, 0x80 + n % 64]
  else [0xF0 + n / 262144, 0x80 + n / 4096 % 64, 0x80 + n / 64 % 64, 0x80 + n % 64]

/-- UTF-8 encoding of a character string. -/
def utf8EncodeStr (s : Str) : List Nat :=
  (s.map utf8EncodeChar).flatten

/-- The outer read loop over raw byte chunks, composing the incremental
`TextDecoder` with the line-draining machine (ChatInterface.tsx
lines 160-201). -/
def runByteChunks (parse : Str → Option (Option Str)) :
    DecodeState → U8 → List (List Nat) → DecodeState
  | st, _, [] => st
  | st, u, bc :: bcs =>
    if st.streamDone then st
    else
      let p := utf8DecodeChunk u bc
      runByteChunks parse (feedChunk parse st p.2) p.1 bcs

/-! ### The full `streamChat` model (ChatInterface.tsx lines 85-225)

The network and platform collaborators are modelled as explicit inputs:
whether `supabase.auth.getSession()` yields a session, whether `fetch`
resolves, the HTTP response status and body presence, the raw byte chunks
delivered by the reader, whether the reader fails (rejects) after those
chunks, and the text-to-speech result. -/

/-- User-visible toast notifications issued by `streamChat`. -/
inductive Notif where
  | authRequired
  | rateLimited
  | paymentRequired
  | genericError
deriving DecidableEq

/-- Environment/collaborator inputs of one `streamChat` call. -/
structure RelayIn where
  hasSession : Bool
  fetchOk : Bool
  status : Nat
  hasBody : Bool
  byteChunks : List (List Nat)
  readFails : Bool
  voiceEnabled : Bool
  ttsAudio : Option Str
deriving DecidableEq

/-- Result of one `streamChat` call: the toasts shown, the final `messages`
state, and whether the response body was read as a stream. -/
structure RelayOut where
  notifs : List Notif
  msgs : List Msg
  decoded : Bool
deriving DecidableEq

/-- Model of `Response.ok`: status in the range 200-299. -/
def respOk (status : Nat) : Bool := 200 ≤ status && status < 300

/-- The `setMessages` update applied after speech synthesis
(ChatInterface.tsx lines 206-214): attach the audio to the last message if
it is an assistant message, otherwise leave the list unchanged. -/
def attachAudio (msgs : List Msg) (audio : Str) : List Msg :=
  match msgs.getLast? with
  | some m =>
    if m.role = Role.assistant then
      msgs.dropLast ++ [{ m with audioContent := some audio }]
    else msgs
  | none => msgs

/-- The `streamChat` control flow (ChatInterface.tsx lines 85-225) over the
current `messages` React state `msgs0`:

* no session: show the authentication toast and return (lines 88-96);
* `fetch` rejects: the `catch` block shows the generic error toast
  (lines 217-224);
* response not ok or body absent: show the rate-limit toast on 429 or the
  payment toast on 402, then `throw`, so the `catch` block adds the generic
  error toast (lines 137-152); the body is never read;
* otherwise decode the byte chunks to completion; if the reader then fails
  the `catch` block shows the generic error toast and the accumulated
  messages are left in place; on success optionally run text-to-speech and
  attach the audio to the last assistant message (lines 203-216). -/
def streamChat (parse : Str → Option (Option Str)) (msgs0 : List Msg)
    (inp : RelayIn) : RelayOut :=
  if !inp.hasSession then
    { notifs := [.authRequired], msgs := msgs0, decoded := false }
  else if !inp.fetchOk then
    { notifs := [.genericError], msgs := msgs0, decoded := false }
  else if !respOk inp.status || !inp.hasBody then
    { notifs :=
        (if inp.status = 429 then [.rateLimited]
         else if inp.status = 402 then [.paymentRequired]
         else []) ++ [.genericError],
      msgs := msgs0, decoded := false }
  else
    let st := runByteChunks parse (initState msgs0) u8Init inp.byteChunks
    if inp.readFails then
      { notifs := [.genericError], msgs := st.msgs, decoded := true }
    else
      let msgs' :=
        if inp.voiceEnabled && st.assistantContent != [] then
          match inp.ttsAudio with
          | some audio => if audio = [] then st.msgs else attachAudio st.msgs audio
          | none => st.msgs
        else st.msgs
      { notifs := [], msgs := msgs', decoded := true }

/-! ### The serialized request body (ChatInterface.tsx lines 98-135)

`streamChat` builds `messageContent` and `systemContext` from the new user
message and the stored PDF context, then serializes
`\x7b messages: [...history, \x7brole, content: messageContent\x7d], systemContext \x7d`
as the POST body. -/

/-- The serialized request body of the relay POST
(ChatInterface.tsx lines 128-134). -/
structure ChatBody where
  messages : List (Role × Str)
  systemContext : Str
deriving DecidableEq

/-- The per-file context block built at ChatInterface.tsx lines 103-111. -/
def fileBlock (f : UFile) : Str :=
  match f.analysis with
  | some a =>
      str "[Document: " ++ f.name ++ str "]\nTopic: " ++ a.topic ++
      str "\nSubtopics: " ++ List.intercalate (str ", ") a.subtopics ++
      str "\nSummary: " ++ a.summary
  | none => str "[Attached file: " ++ f.name ++ str "]"

/-- Build the POST body exactly as ChatInterface.tsx lines 98-134 do:
`messageContent` is the user message content (it is never modified); the
file blocks go into the separate `systemContext` string, to which a stored
PDF context is prepended if present. -/
def buildBody (msgs : List Msg) (userMessage : Msg) (pdfContext : Option Str) :
    ChatBody :=
  let messageContent := userMessage.content
  let systemContext :=
    if userMessage.files.length > 0 then
      str "The user has uploaded the following document(s):\n" ++
      List.intercalate (str "\n\n") (userMessage.files.map fileBlock) ++
      str "\n\nProvide advanced insights based on this context."
    else []
  let systemContext :=
    match pdfContext with
    | some p => p ++ str "\n\n" ++ systemContext
    | none => systemContext
  { messages :=
      msgs.map (fun m => (m.role, m.content)) ++
      [(userMessage.role, messageContent)],
    systemContext := systemContext }

/-! ### The chat proxy edge function (unnamed source file, lines 10-137)

The proxy authenticates the caller, validates the `messages` payload,
forwards it upstream with streaming enabled, maps upstream failures to
specific statuses, and pipes a successful upstream body back unmodified. -/

/-- A coarse model of a JSON value as far as the proxy's validation
observes it: a string, or some other value that is only tested for
truthiness.  `jnum 0`, `jbool false` and `jnull` are falsy; objects and
arrays are truthy. -/
inductive JVal where
  | jstr (s : Str)
  | jnum (n : Int)
  | jbool (b : Bool)
  | jnull
  | jarr
  | jobj
deriving DecidableEq

/-- JavaScript truthiness of a `JVal`. -/
def truthy : JVal → Bool
  | .jstr s => s != []
  | .jnum n => n != 0
  | .jbool b => b
  | .jnull => false
  | .jarr => true
  | .jobj => true

/-- One entry of the `messages` array as the proxy sees it; `none` models
an absent field. -/
structure RawMsg where
  role : Option JVal
  content : Option JVal
deriving DecidableEq

/-- Truthiness of an optional field (`undefined` is falsy). -/
def fieldTruthy : Option JVal → Bool
  | some v => truthy v
  | none => false

/-- The role check at proxy line 59:
`!msg.role || !['user', 'assistant', 'system'].includes(msg.role)`. -/
def badRole (m : RawMsg) : Bool :=
  !fieldTruthy m.role ||
  !(m.role == some (.jstr (str "user")) || m.role == some (.jstr (str "assistant")) ||
    m.role == some (.jstr (str "system")))

/-- The content check at proxy line 65:
`!msg.content || typeof msg.content !== 'string'`. -/
def badContent (m : RawMsg) : Bool :=
  !fieldTruthy m.content ||
  !(match m.content with | some (.jstr _) => true | _ => false)

/-- The content length check at proxy line 71: `msg.content.length > 10000`. -/
def tooLong (m : RawMsg) : Bool :=
  match m.content with
  | some (.jstr s) => s.length > 10000
  | _ => false

/-- Proxy error message constants (copied from the source). -/
def errNotArray : Str := str "Messages must be an array"

/-- Proxy error message for an empty messages array. -/
def errEmpty : Str := str "Messages array cannot be empty"

/-- Proxy error message for more than 50 messages. -/
def errTooMany : Str := str "Messages array cannot exceed 50 messages"

/-- Proxy error message for an invalid role. -/
def errRole : Str := str "Invalid message role. Must be user, assistant, or system"

/-- Proxy error message for missing or non-string content. -/
def errContent : Str := str "Message content must be a non-empty string"

/-- Proxy error message for over-long content. -/
def errLong : Str := str "Message content cannot exceed 10,000 characters"

/-- Proxy error message for an unauthenticated caller. -/
def errUnauthorized : Str := str "Unauthorized - Please log in"

/-- Proxy error message for upstream rate limiting. -/
def errRate : Str := str "Rate limits exceeded, please try again later."

/-- Proxy error message for upstream payment failure. -/
def errPayment : Str := str "Payment required, please add funds to your Lovable AI workspace."

/-- Proxy error message for any other upstream failure. -/
def errGateway : Str := str "AI gateway error"

/-- Proxy error message when the API key environment variable is missing. -/
def errNoKey : Str := str "LOVABLE_API_KEY is not configured"

/-- The per-message validation loop (proxy lines 58-77): return the first
validation error message, or `none` if every entry passes. -/
def validateMsgs : List RawMsg → Option Str
  | [] => none
  | m :: ms =>
    if badRole m then some errRole
    else if badContent m then some errContent
    else if tooLong m then some errLong
    else validateMsgs ms

/-- A request to the proxy as the handler observes it: whether
`auth.getUser()` succeeds, whether `req.json()` parses, and the `messages`
field (`none` models a missing, falsy or non-array value, which the check
`!messages || !Array.isArray(messages)` treats alike). -/
structure ProxyReq where
  authed : Bool
  bodyOk : Bool
  messages : Option (List RawMsg)
deriving DecidableEq

/-- The upstream completion provider's response: its status and its raw
body byte chunks. -/
structure Upstream where
  status : Nat
  body : List (List Nat)
deriving DecidableEq

/-- The proxy's HTTP response together with whether the upstream provider
was contacted at all. -/
structure ProxyOut where
  status : Nat
  errorMsg : Option Str
  streamBody : Option (List (List Nat))
  contentType : Str
  calledUpstream : Bool
deriving DecidableEq

/-- A JSON error response of the proxy (content type `application/json`). -/
def jsonError (status : Nat) (msg : Str) (called : Bool) : ProxyOut :=
  { status := status, errorMsg := some msg, streamBody := none,
    contentType := str "application/json", calledUpstream := called }

/-- The proxy `serve` handler (lines 10-137): authentication first, then
payload validation, then the upstream call; upstream 429 and 402 are
mapped through, any other upstream failure becomes 500, and an upstream
success is piped back unmodified as `text/event-stream`.  `keyPresent`
models `Deno.env.get("LOVABLE_API_KEY")` being set; its absence throws and
is caught as a 500. -/
def handleChat (req : ProxyReq) (keyPresent : Bool) (up : Upstream) : ProxyOut :=
  if !req.authed then jsonError 401 errUnauthorized false
  else if !req.bodyOk then jsonError 500 (str "request body error") false
  else
    match req.messages with
    | none => jsonError 400 errNotArray false
    | some ms =>
      if ms.length = 0 then jsonError 400 errEmpty false
      else if ms.length > 50 then jsonError 400 errTooMany false
      else
        match validateMsgs ms with
        | some e => jsonError 400 e false
        | none =>
          if !keyPresent then jsonError 500 errNoKey false
          else if !respOk up.status then
            if up.status = 429 then jsonError 429 errRate true
            else if up.status = 402 then jsonError 402 errPayment true
            else jsonError 500 errGateway true
          else
            { status := 200, errorMsg := none, streamBody := some up.body,
              contentType := str "text/event-stream", calledUpstream := true }

/-! ### Canonical line-level semantics

To reason about the decode loop under arbitrary chunkings we relate it to a
canonical pass over the list of complete lines of the whole stream text. -/

/-- Split a text into its complete (newline-terminated) lines and the
trailing remainder that is not yet newline-terminated. -/
def splitLines : Str → List Str × Str
  | [] => ([], [])
  | c :: cs =>
    if c = '\n' then
      ([] :: (splitLines cs).1, (splitLines cs).2)
    else
      match splitLines cs with
      | (l :: ls, r) => ((c :: l) :: ls, r)
      | ([], r) => ([], c :: r)

/-- The text of a list of lines, each terminated by a newline. -/
def streamText (ls : List Str) : Str :=
  (ls.map (fun l => l ++ ['\n'])).flatten

/-- Accumulator component of the decode state: the accumulated assistant
content and the `messages` state. -/
structure AccSt where
  acc : Str
  msgs : List Msg
deriving DecidableEq

/-- Apply one content delta to the accumulator (the buffer-free version of
`applyDelta`). -/
def applyDeltaA (a : AccSt) (c : Str) : AccSt :=
  { acc := a.acc ++ c, msgs := pushAssistant a.msgs (a.acc ++ c) }

/-- The two ways the canonical pass can stop early: on the `[DONE]` line, or
stuck on a line whose payload never parses (it would be pushed back and
retried forever). -/
inductive StopK where
  | done
  | push (bad : Str)
deriving DecidableEq

/-- Canonical processing of a list of complete lines: fold the per-line
action, stopping at the first `[DONE]` line or at the first line whose
payload fails to parse; the unprocessed rest of the list is returned with
the stop. -/
def procLines (parse : Str → Option (Option Str)) (a : AccSt) :
    List Str → AccSt × Option (StopK × List Str)
  | [] => (a, none)
  | l :: ls =>
    match classifyLine parse l with
    | .skip => procLines parse a ls
    | .delta c => procLines parse (applyDeltaA a c) ls
    | .done => (a, some (.done, ls))
    | .push => (a, some (.push l, ls))

/-- The delta contributed by one line: its content string if it is a
content-delta line, empty otherwise. -/
def lineDelta (parse : Str → Option (Option Str)) (l : Str) : Str :=
  match classifyLine parse l with
  | .delta c => c
  | _ => []

/-- Concatenation, in order, of the delta contents of a list of lines. -/
def deltasOf (parse : Str → Option (Option Str)) (ls : List Str) : Str :=
  (ls.map (lineDelta parse)).flatten

/-- The terminal line `data: [DONE]`. -/
def doneLine : Str := str "data: [DONE]"

/-- Sequentially decode a list of byte chunks into the corresponding list
of text chunks, threading the incremental UTF-8 decoder state. -/
def decodePieces (u : U8) : List (List Nat) → List Str
  | [] => []
  | bc :: bcs =>
    (utf8DecodeChunk u bc).2 :: decodePieces (utf8DecodeChunk u bc).1 bcs

/-- The messages-state invariant of the decode loop: either no delta has
been applied yet and the `messages` state is untouched, or the state is the
initial list plus exactly one trailing assistant message carrying the
accumulated content. -/
def MsgInv (msgs0 : List Msg) (st : DecodeState) : Prop :=
  (st.assistantContent = [] ∧ st.msgs = msgs0) ∨
  (st.assistantContent ≠ [] ∧
    st.msgs = msgs0 ++
      [{ role := Role.assistant, content := st.assistantContent }])

/-- A relay attempt counts as failed when any `RelayError` variant occurs:
no session, network failure, a non-ok or body-less response, or a reader
failure during streaming. -/
def RelayFailed (inp : RelayIn) : Prop :=
  inp.hasSession = false ∨ inp.fetchOk = false ∨ respOk inp.status = false ∨
  inp.hasBody = false ∨ inp.readFails = true

/-- Executable model of `JSON.parse` plus the `choices[0].delta.content`
extraction for payloads of the exact shape
`\x7b"choices":[\x7b"delta":\x7b"content":"<text>"\x7d\x7d]\x7d` with an
escape-free text: used to instantiate the `parse` parameter on the concrete
protocol payloads of the witnesses.  Every other payload fails to parse. -/
def payloadPre : Str := str "\x7b\"choices\":[\x7b\"delta\":\x7b\"content\":\""

/-- Closing text of the recognized payload shape. -/
def payloadSuf : Str := str "\"\x7d\x7d]\x7d"

/-- Build the payload of a content delta `c`. -/
def payloadOf (c : Str) : Str := payloadPre ++ c ++ payloadSuf

/-- Build the full `data: ` line of a content delta `c`. -/
def deltaLine (c : Str) : Str := dataTag ++ payloadOf c

/-- The concrete parse function used in witnesses (see `payloadPre`). -/
def simpleParse (j : Str) : Option (Option Str) :=
  if startsWith payloadPre j then
    let rest := j.drop payloadPre.length
    if payloadSuf.length ≤ rest.length &&
        rest.drop (rest.length - payloadSuf.length) == payloadSuf then
      let mid := rest.take (rest.length - payloadSuf.length)
      if mid.all (fun c => c != '"' && c != '\\') then some (some mid) else none
    else none
  else none

/-! ## Lemmas about line splitting -/

/-- `lineSplit` fails exactly on newline-free buffers. -/
theorem lineSplit_eq_none {s : Str} (h : '\n' ∉ s) : lineSplit s = none := by
  induction s with
  | nil => rfl
  | cons c cs ih =>
    have hc : ¬ c = '\n' := fun hc => h (hc ▸ List.mem_cons_self c cs)
    have hcs : '\n' ∉ cs := fun hm => h (List.mem_cons_of_mem c hm)
    simp [lineSplit, hc, ih hcs]

/-- `lineSplit` on a buffer shaped as a newline-free line, a newline and a
rest returns exactly that decomposition. -/
theorem lineSplit_shape {l r : Str} (h : '\n' ∉ l) :
    lineSplit (l ++ '\n' :: r) = some (l, r) := by
  induction l with
  | nil => simp [lineSplit]
  | cons c cs ih =>
    have hc : ¬ c = '\n' := fun hc => h (hc ▸ List.mem_cons_self c cs)
    have hcs : '\n' ∉ cs := fun hm => h (List.mem_cons_of_mem c hm)
    simp [lineSplit, hc, ih hcs]

/-- A successful `lineSplit` decomposes the buffer. -/
theorem lineSplit_eq_some {s l r : Str} (h : lineSplit s = some (l, r)) :
    s = l ++ '\n' :: r ∧ '\n' ∉ l := by
  induction s generalizing l r with
  | nil => simp [lineSplit] at h
  | cons c cs ih =>
    by_cases hc : c = '\n'
    · subst hc
      simp [lineSplit] at h
      obtain ⟨h1, h2⟩ := h
      subst h1; subst h2
      simp
    · simp [lineSplit, hc] at h
      rcases hsplit : lineSplit cs with _ | ⟨l', r'⟩
      · rw [hsplit] at h; simp at h
      · rw [hsplit] at h
        simp at h
        obtain ⟨h1, h2⟩ := h
        obtain ⟨hs, hnl⟩ := ih hsplit
        subst h2
        constructor
        · rw [← h1]; simp [hs]
        · rw [← h1]
          intro hm
          rcases List.mem_cons.mp hm with h | h
          · exact hc h.symm
          · exact hnl h

/-- `splitLines` on a newline-free text yields no complete line. -/
theorem splitLines_no_newline {s : Str} (h : '\n' ∉ s) : splitLines s = ([], s) := by
  induction s with
  | nil => rfl
  | cons c cs ih =>
    have hc : ¬ c = '\n' := fun hc => h (hc ▸ List.mem_cons_self c cs)
    have hcs : '\n' ∉ cs := fun hm => h (List.mem_cons_of_mem c hm)
    simp [splitLines, hc, ih hcs]

/-- `splitLines` peels one leading complete line. -/
theorem splitLines_cons_line {l r : Str} (h : '\n' ∉ l) :
    splitLines (l ++ '\n' :: r) =
      (l :: (splitLines r).1, (splitLines r).2) := by
  induction l with
  | nil => simp [splitLines]
  | cons c cs ih =>
    have hc : ¬ c = '\n' := fun hc => h (hc ▸ List.mem_cons_self c cs)
    have hcs : '\n' ∉ cs := fun hm => h (List.mem_cons_of_mem c hm)
    simp only [List.cons_append, splitLines, if_neg hc, List.append_eq, ih hcs]

/-- Complete lines returned by `splitLines` are newline-free. -/
theorem splitLines_mem_no_newline {s l : Str} (h : l ∈ (splitLines s).1) :
    '\n' ∉ l := by
  induction s generalizing l with
  | nil => simp [splitLines] at h
  | cons c cs ih =>
    by_cases hc : c = '\n'
    · subst hc
      simp [splitLines] at h
      rcases h with h | h
      · subst h; simp
      · exact ih h
    · simp only [splitLines, if_neg hc] at h
      rcases hsplit : splitLines cs with ⟨ls, r⟩
      rw [hsplit] at h
      cases ls with
      | nil => simp at h
      | cons l0 ls' =>
        simp at h
        rcases h with h | h
        · subst h
          intro hm
          rcases List.mem_cons.mp hm with h | h
          · exact hc h.symm
          · exact ih (l := l0) (by rw [hsplit]; exact List.mem_cons_self _ _) h
        · exact ih (by rw [hsplit]; exact List.mem_cons_of_mem _ h)

/-- The remainder returned by `splitLines` is newline-free. -/
theorem splitLines_rem_no_newline (s : Str) : '\n' ∉ (splitLines s).2 := by
  induction s with
  | nil => simp [splitLines]
  | cons c cs ih =>
    by_cases hc : c = '\n'
    · subst hc; simpa [splitLines] using ih
    · simp only [splitLines, if_neg hc]
      rcases hsplit : splitLines cs with ⟨ls, r⟩
      rw [hsplit] at ih
      cases ls with
      | nil =>
        simp only
        intro hm
        rcases List.mem_cons.mp hm with h | h
        · exact hc h.symm
        · exact ih h
      | cons l0 ls' => simpa using ih

/-- Recomposition: the lines and the remainder concatenate back to the text. -/
theorem splitLines_recompose (s : Str) :
    streamText (splitLines s).1 ++ (splitLines s).2 = s := by
  induction s with
  | nil => rfl
  | cons c cs ih =>
    by_cases hc : c = '\n'
    · subst hc
      simp only [splitLines, if_pos rfl]
      simpa [streamText] using ih
    · simp only [splitLines, if_neg hc]
      rcases hsplit : splitLines cs with ⟨ls, r⟩
      rw [hsplit] at ih
      cases ls with
      | nil =>
        simp only [streamText] at ih ⊢
        simpa using ih
      | cons l0 ls' =>
        simp only [streamText] at ih ⊢
        simpa using ih

/-- Splitting the text of newline-free lines returns exactly those lines. -/
theorem splitLines_streamText {ls : List Str} (h : ∀ l ∈ ls, '\n' ∉ l) :
    splitLines (streamText ls) = (ls, []) := by
  induction ls with
  | nil => rfl
  | cons l ls' ih =>
    have hl : '\n' ∉ l := h l (List.mem_cons_self _ _)
    have hls : ∀ x ∈ ls', '\n' ∉ x := fun x hx => h x (List.mem_cons_of_mem _ hx)
    have : streamText (l :: ls') = l ++ '\n' :: streamText ls' := by
      simp [streamText]
    rw [this, splitLines_cons_line hl, ih hls]

/-- Composition of `splitLines` over a concatenation: the lines of `x ++ y`
are the lines of `x` followed by the lines of the remainder of `x` glued to
`y`. -/
theorem splitLines_append (x y : Str) :
    splitLines (x ++ y) =
      ((splitLines x).1 ++ (splitLines ((splitLines x).2 ++ y)).1,
       (splitLines ((splitLines x).2 ++ y)).2) := by
  induction x with
  | nil => simp [splitLines]
  | cons c cs ih =>
    by_cases hc : c = '\n'
    · subst hc
      simp [splitLines, ih]
    · simp only [List.cons_append, splitLines, if_neg hc]
      rcases hsplit : splitLines cs with ⟨ls, r⟩
      rw [hsplit] at ih
      cases ls with
      | nil =>
        simp only [List.append_eq] at ih ⊢
        rw [ih]
        simp only [List.nil_append]
        rcases hsplit2 : splitLines (r ++ y) with ⟨ls2, r2⟩
        simp only [List.cons_append, splitLines, if_neg hc, List.append_eq, hsplit2]
      | cons l0 ls' =>
        simp only [List.append_eq] at ih ⊢
        rw [ih]
        simp

/-- A failed `lineSplit` means the buffer is newline-free. -/
theorem lineSplit_none_no_newline {s : Str} (h : lineSplit s = none) : '\n' ∉ s := by
  induction s with
  | nil => simp
  | cons c cs ih =>
    by_cases hc : c = '\n'
    · subst hc; simp [lineSplit] at h
    · rcases hsplit : lineSplit cs with _ | ⟨l, r⟩
      · intro hm
        rcases List.mem_cons.mp hm with h' | h'
        · exact hc h'.symm
        · exact ih hsplit h'
      · exfalso
        simp [lineSplit, hc, hsplit] at h

/-! ## Lemmas about the canonical line pass -/

/-- `procLines` over a concatenation: process the first list; if it ran out
without stopping, continue on the second, otherwise the stop's rest is
extended by the second list. -/
theorem procLines_append (parse : Str → Option (Option Str)) (a : AccSt)
    (xs ys : List Str) :
    procLines parse a (xs ++ ys) =
      (match procLines parse a xs with
       | (a', none) => procLines parse a' ys
       | (a', some (k, rest)) => (a', some (k, rest ++ ys))) := by
  induction xs generalizing a with
  | nil => simp [procLines]
  | cons l ls ih =>
    cases hcl : classifyLine parse l with
    | skip => simp only [List.cons_append, procLines, hcl, List.append_eq, ih]
    | delta c => simp only [List.cons_append, procLines, hcl, List.append_eq, ih]
    | done => simp only [List.cons_append, procLines, hcl, List.append_eq]
    | push => simp only [List.cons_append, procLines, hcl, List.append_eq]

/-- When `procLines` stops on a push, the stuck line is classified `push`
and belongs to the processed list. -/
theorem procLines_stop_push {parse : Str → Option (Option Str)} {a a' : AccSt}
    {ls rest : List Str} {bad : Str}
    (h : procLines parse a ls = (a', some (.push bad, rest))) :
    classifyLine parse bad = .push ∧ bad ∈ ls := by
  induction ls generalizing a with
  | nil => simp [procLines] at h
  | cons l ls' ih =>
    cases hcl : classifyLine parse l with
    | skip =>
      simp only [procLines, hcl] at h
      obtain ⟨h1, h2⟩ := ih h
      exact ⟨h1, List.mem_cons_of_mem _ h2⟩
    | delta c =>
      simp only [procLines, hcl] at h
      obtain ⟨h1, h2⟩ := ih h
      exact ⟨h1, List.mem_cons_of_mem _ h2⟩
    | done => simp [procLines, hcl] at h
    | push =>
      simp only [procLines, hcl, Prod.mk.injEq, Option.some.injEq,
        StopK.push.injEq] at h
      obtain ⟨-, h2, -⟩ := h
      subst h2
      exact ⟨hcl, List.mem_cons_self _ _⟩

/-- Characterization of the inner draining loop: with sufficient fuel and
the stream not yet done, `drain` acts on the buffer's complete lines exactly
as the canonical pass does, and the final buffer is the unsplit remainder
(after the `[DONE]` line or the stuck pushed-back line, when a stop
occurred). -/
theorem drain_spec (parse : Str → Option (Option Str)) :
    ∀ (fuel : Nat) (st : DecodeState), st.textBuffer.length ≤ fuel →
    st.streamDone = false →
    drain parse fuel st =
      (match procLines parse ⟨st.assistantContent, st.msgs⟩
          (splitLines st.textBuffer).1 with
       | (a, none) =>
         { textBuffer := (splitLines st.textBuffer).2,
           assistantContent := a.acc, msgs := a.msgs, streamDone := false }
       | (a, some (.done, ls')) =>
         { textBuffer := streamText ls' ++ (splitLines st.textBuffer).2,
           assistantContent := a.acc, msgs := a.msgs, streamDone := true }
       | (a, some (.push bad, ls')) =>
         { textBuffer :=
             stripCR bad ++ '\n' :: (streamText ls' ++ (splitLines st.textBuffer).2),
           assistantContent := a.acc, msgs := a.msgs, streamDone := false }) := by
  intro fuel
  induction fuel with
  | zero =>
    intro st hlen hdone
    obtain ⟨buf, acc, msgs, done⟩ := st
    simp only at hlen hdone
    subst hdone
    have hbuf : buf = [] := List.eq_nil_of_length_eq_zero (Nat.le_zero.mp hlen)
    subst hbuf
    simp [drain, splitLines, procLines]
  | succ fuel ih =>
    intro st hlen hdone
    obtain ⟨buf, acc, msgs, done⟩ := st
    simp only at hlen hdone ⊢
    subst hdone
    rcases hsplit : lineSplit buf with _ | ⟨line0, rest⟩
    · have hnl : '\n' ∉ buf := lineSplit_none_no_newline hsplit
      rw [splitLines_no_newline hnl]
      simp [drain, hsplit, procLines]
    · obtain ⟨hbuf, hnl⟩ := lineSplit_eq_some hsplit
      have hsl : splitLines buf = (line0 :: (splitLines rest).1, (splitLines rest).2) := by
        rw [hbuf]; exact splitLines_cons_line hnl
      have hlen' : rest.length ≤ fuel := by
        have hl2 := congrArg List.length hbuf
        simp [List.length_append] at hl2
        omega
      rw [hsl]
      cases hcl : classifyLine parse line0 with
      | skip =>
        have hrw := ih { textBuffer := rest, assistantContent := acc, msgs := msgs,
                         streamDone := false } hlen' rfl
        simp only [drain, hsplit, hcl]
        rw [hrw]
        simp only [procLines, hcl]
      | delta c =>
        have hrw := ih (applyDelta ⟨rest, acc, msgs, false⟩ c)
                      (by simpa [applyDelta] using hlen') (by simp [applyDelta])
        simp only [drain, hsplit, hcl]
        rw [hrw]
        simp only [procLines, hcl, applyDelta, applyDeltaA]
      | done =>
        simp only [drain, hsplit, hcl]
        simp only [procLines, hcl]
        have := splitLines_recompose rest
        simp only [this]
      | push =>
        simp only [drain, hsplit, hcl]
        simp only [procLines, hcl]
        have := splitLines_recompose rest
        simp only [this]

/-- Once the `streamDone` flag is set, the outer loop reads no further chunk. -/
theorem runChunks_done {parse : Str → Option (Option Str)} {st : DecodeState}
    (cs : List Str) (h : st.streamDone = true) : runChunks parse st cs = st := by
  cases cs <;> simp [runChunks, h]

/-- Draining a buffer whose first complete line permanently fails to parse
is a no-op: the line is pushed back verbatim and the loop breaks. -/
theorem stuck_drain (parse : Str → Option (Option Str)) {l : Str}
    (hcl : classifyLine parse l = .push) (hstrip : stripCR l = l)
    (hnl : '\n' ∉ l) (t : Str) (acc : Str) (msgs : List Msg)
    (fuel : Nat) (hf : 1 ≤ fuel) :
    drain parse fuel ⟨l ++ '\n' :: t, acc, msgs, false⟩ =
      ⟨l ++ '\n' :: t, acc, msgs, false⟩ := by
  cases fuel with
  | zero => omega
  | succ f => simp [drain, lineSplit_shape hnl, hcl, hstrip]

/-- A decode state stuck on a permanently-unparsable first line absorbs
every further chunk without changing the accumulator, the messages or the
done flag. -/
theorem stuck_runChunks (parse : Str → Option (Option Str)) {l : Str}
    (hcl : classifyLine parse l = .push) (hstrip : stripCR l = l)
    (hnl : '\n' ∉ l) :
    ∀ (cs : List Str) (t acc : Str) (msgs : List Msg),
    (runChunks parse ⟨l ++ '\n' :: t, acc, msgs, false⟩ cs).assistantContent = acc ∧
    (runChunks parse ⟨l ++ '\n' :: t, acc, msgs, false⟩ cs).msgs = msgs ∧
    (runChunks parse ⟨l ++ '\n' :: t, acc, msgs, false⟩ cs).streamDone = false := by
  intro cs
  induction cs with
  | nil => intro t acc msgs; simp [runChunks]
  | cons c cs ih =>
    intro t acc msgs
    have hbuf : (l ++ '\n' :: t) ++ c = l ++ '\n' :: (t ++ c) := by simp
    have hfeed : feedChunk parse ⟨l ++ '\n' :: t, acc, msgs, false⟩ c =
        ⟨l ++ '\n' :: (t ++ c), acc, msgs, false⟩ := by
      simp only [feedChunk, hbuf]
      exact stuck_drain parse hcl hstrip hnl (t ++ c) acc msgs _ (by simp; omega)
    simp only [runChunks, Bool.false_eq_true, if_false, hfeed]
    exact ih (t ++ c) acc msgs

/-- Chunk-boundary invariance of the decode loop: starting from a
newline-free buffer, running the outer loop over any chunk list produces,
on the accumulated content, the messages state and the done flag, exactly
the result of the canonical pass over the complete lines of the whole
text.  The only side condition is that a line on which the canonical pass
stops with a pushback must be unchanged by carriage-return stripping (for
the well-formed streams of the claims no such line exists, and for the
malformed-line claims it is explicit). -/
theorem runChunks_spec (parse : Str → Option (Option Str)) :
    ∀ (chunks : List Str) (a : AccSt) (r : Str), '\n' ∉ r →
    (∀ bad rest,
        (procLines parse a (splitLines (r ++ chunks.flatten)).1).2 =
          some (.push bad, rest) → stripCR bad = bad) →
    (runChunks parse ⟨r, a.acc, a.msgs, false⟩ chunks).assistantContent =
        (procLines parse a (splitLines (r ++ chunks.flatten)).1).1.acc ∧
    (runChunks parse ⟨r, a.acc, a.msgs, false⟩ chunks).msgs =
        (procLines parse a (splitLines (r ++ chunks.flatten)).1).1.msgs ∧
    (runChunks parse ⟨r, a.acc, a.msgs, false⟩ chunks).streamDone =
        (match (procLines parse a (splitLines (r ++ chunks.flatten)).1).2 with
         | some (.done, _) => true
         | _ => false) := by
  intro chunks
  induction chunks with
  | nil =>
    intro a r hnr hps
    simp only [List.flatten_nil, List.append_nil]
    rw [splitLines_no_newline hnr]
    simp [runChunks, procLines]
  | cons c cs ih =>
    intro a r hnr hps
    obtain ⟨acc, msgs⟩ := a
    have htext : r ++ (c :: cs).flatten = (r ++ c) ++ cs.flatten := by
      simp [List.flatten_cons]
    rw [htext] at hps ⊢
    have hsl := splitLines_append (r ++ c) cs.flatten
    have hd := drain_spec parse (r ++ c).length ⟨r ++ c, acc, msgs, false⟩
      (Nat.le_refl _) rfl
    rcases hP1 : procLines parse ⟨acc, msgs⟩ (splitLines (r ++ c)).1 with ⟨a₁, stop⟩
    have hfull : procLines parse ⟨acc, msgs⟩
        (splitLines ((r ++ c) ++ cs.flatten)).1 =
        (match procLines parse ⟨acc, msgs⟩ (splitLines (r ++ c)).1 with
         | (a', none) =>
             procLines parse a'
               (splitLines ((splitLines (r ++ c)).2 ++ cs.flatten)).1
         | (a', some (k, rest)) =>
             (a', some (k,
               rest ++ (splitLines ((splitLines (r ++ c)).2 ++ cs.flatten)).1))) := by
      rw [hsl]
      exact procLines_append parse ⟨acc, msgs⟩ _ _
    rw [hP1] at hfull hd
    have hstep : runChunks parse ⟨r, acc, msgs, false⟩ (c :: cs) =
        runChunks parse (drain parse (r ++ c).length ⟨r ++ c, acc, msgs, false⟩) cs := by
      simp [runChunks, feedChunk]
    rw [hstep, hd]
    cases stop with
    | none =>
      dsimp only at hfull ⊢
      rw [hfull]
      have hrem := splitLines_rem_no_newline (r ++ c)
      have hps' : ∀ bad rest,
          (procLines parse a₁
            (splitLines ((splitLines (r ++ c)).2 ++ cs.flatten)).1).2 =
            some (.push bad, rest) → stripCR bad = bad := by
        intro bad rest h
        exact hps bad rest (by rw [hfull]; exact h)
      exact ih a₁ (splitLines (r ++ c)).2 hrem hps'
    | some kr =>
      rcases kr with ⟨k, ls'⟩
      cases k with
      | done =>
        dsimp only at hfull ⊢
        rw [runChunks_done cs rfl, hfull]
        exact ⟨rfl, rfl, rfl⟩
      | push bad =>
        dsimp only at hfull ⊢
        obtain ⟨hclbad, hmem⟩ := procLines_stop_push hP1
        have hstrip : stripCR bad = bad := by
          apply hps bad (ls' ++ (splitLines ((splitLines (r ++ c)).2 ++ cs.flatten)).1)
          rw [hfull]
        have hnlbad : '\n' ∉ bad := splitLines_mem_no_newline hmem
        rw [hstrip]
        have hstuck := stuck_runChunks parse hclbad hstrip hnlbad cs
          (streamText ls' ++ (splitLines (r ++ c)).2) a₁.acc a₁.msgs
        rw [hfull]
        exact hstuck

/-- On a list of lines none of which is a `[DONE]` line or a stuck line,
the canonical pass runs to the end and accumulates exactly the
concatenation of the lines' deltas, in order. -/
theorem procLines_no_stop (parse : Str → Option (Option Str)) (a : AccSt)
    (ls : List Str)
    (h : ∀ l ∈ ls, classifyLine parse l ≠ .push ∧ classifyLine parse l ≠ .done) :
    (procLines parse a ls).2 = none ∧
    (procLines parse a ls).1.acc = a.acc ++ deltasOf parse ls := by
  induction ls generalizing a with
  | nil => simp [procLines, deltasOf]
  | cons l ls' ih =>
    have hl := h l (List.mem_cons_self _ _)
    have hls : ∀ x ∈ ls', classifyLine parse x ≠ .push ∧ classifyLine parse x ≠ .done :=
      fun x hx => h x (List.mem_cons_of_mem _ hx)
    cases hcl : classifyLine parse l with
    | skip =>
      have := ih hls (a := a)
      simp only [procLines, hcl]
      simpa [deltasOf, lineDelta, hcl] using this
    | delta c =>
      have := ih hls (a := applyDeltaA a c)
      simp only [procLines, hcl]
      simpa [deltasOf, lineDelta, hcl, applyDeltaA, List.append_assoc] using this
    | done => exact absurd hcl hl.2
    | push => exact absurd hcl hl.1

/-- The `data: [DONE]` line is classified as terminal by the loop body,
whatever the parse function. -/
theorem classify_doneLine (parse : Str → Option (Option Str)) :
    classifyLine parse doneLine = .done := by rfl

/-- The `[DONE]` line contains no newline. -/
theorem doneLine_no_newline : '\n' ∉ doneLine := by decide

/-- Running the decode loop over any chunking of a well-formed stream
(delta/comment lines, then `data: [DONE]`, then arbitrary trailing lines)
accumulates exactly the deltas before the `[DONE]` line and sets the done
flag. -/
theorem run_stream_done (parse : Str → Option (Option Str)) (msgs0 : List Msg)
    (pre post : List Str) (chunks : List Str)
    (hnlpre : ∀ l ∈ pre, '\n' ∉ l) (hnlpost : ∀ l ∈ post, '\n' ∉ l)
    (hpre : ∀ l ∈ pre, classifyLine parse l ≠ .push ∧ classifyLine parse l ≠ .done)
    (hchunks : chunks.flatten = streamText (pre ++ doneLine :: post)) :
    (runChunks parse (initState msgs0) chunks).assistantContent = deltasOf parse pre ∧
    (runChunks parse (initState msgs0) chunks).streamDone = true := by
  have hnl : ∀ l ∈ pre ++ doneLine :: post, '\n' ∉ l := by
    intro l hm
    rcases List.mem_append.mp hm with h | h
    · exact hnlpre l h
    · rcases List.mem_cons.mp h with h | h
      · subst h; exact doneLine_no_newline
      · exact hnlpost l h
  have hsplit : splitLines (([] : Str) ++ chunks.flatten) = (pre ++ doneLine :: post, []) := by
    rw [List.nil_append, hchunks]
    exact splitLines_streamText hnl
  obtain ⟨hstop, hacc⟩ := procLines_no_stop parse ⟨[], msgs0⟩ pre hpre
  rcases hPpre : procLines parse ⟨[], msgs0⟩ pre with ⟨a₁, s₁⟩
  rw [hPpre] at hstop hacc
  simp only at hstop hacc
  subst hstop
  have hP : procLines parse ⟨[], msgs0⟩ (pre ++ doneLine :: post) =
      (a₁, some (.done, post)) := by
    rw [procLines_append, hPpre]
    simp only [procLines, classify_doneLine]
  have hspec := runChunks_spec parse chunks ⟨[], msgs0⟩ [] (by simp)
    (by intro bad rest h
        rw [hsplit] at h
        simp only at h
        rw [hP] at h
        simp at h)
  rw [hsplit] at hspec
  simp only [hP] at hspec
  obtain ⟨ha, hm, hd⟩ := hspec
  have hst : initState msgs0 =
      ⟨[], AccSt.acc ⟨[], msgs0⟩, AccSt.msgs ⟨[], msgs0⟩, false⟩ := rfl
  rw [initState]
  refine ⟨?_, ?_⟩
  · rw [ha] at *
    simpa using hacc
  · exact hd

/-! ## Lemmas about the incremental UTF-8 decoder -/

/-- Every Unicode scalar value is below `0x110000`. -/
theorem charLt (c : Char) : c.toNat < 1114112 := by
  rcases c.valid with h | ⟨h1, h2⟩ <;> simp only [Char.toNat] <;> omega

/-- Decoding a concatenation of byte lists decodes the parts in sequence,
threading the carried state. -/
theorem utf8DecodeChunk_append (s : U8) (xs ys : List Nat) :
    utf8DecodeChunk s (xs ++ ys) =
      ((utf8DecodeChunk (utf8DecodeChunk s xs).1 ys).1,
       (utf8DecodeChunk s xs).2 ++ (utf8DecodeChunk (utf8DecodeChunk s xs).1 ys).2) := by
  induction xs generalizing s with
  | nil => simp [utf8DecodeChunk]
  | cons b bs ih => simp [utf8DecodeChunk, ih, List.append_assoc]

/-- Decoding the UTF-8 encoding of one character from the initial state
emits exactly that character and returns to the initial state. -/
theorem utf8Char_roundtrip (c : Char) :
    utf8DecodeChunk u8Init (utf8EncodeChar c) = (u8Init, [c]) := by
  have hv : c.toNat < 1114112 := charLt c
  unfold utf8EncodeChar
  by_cases h1 : c.toNat < 128
  · simp [utf8DecodeChunk, utf8Step, u8Init, h1, Char.ofNat_toNat]
  · by_cases h2 : c.toNat < 2048
    · have e1 : ¬ (192 + c.toNat / 64 < 128) := by omega
      have e2 : 192 ≤ 192 + c.toNat / 64 ∧ 192 + c.toNat / 64 < 224 := by omega
      have e3 : 128 ≤ 128 + c.toNat % 64 ∧ 128 + c.toNat % 64 < 192 := by omega
      simp only [if_neg h1, if_pos h2, utf8DecodeChunk, utf8Step, u8Init,
        if_neg e1, if_pos e2, if_pos e3]
      have e4 : c.toNat / 64 * 64 + c.toNat % 64 = c.toNat := by omega
      simp
      rw [e4, Char.ofNat_toNat]
    · by_cases h3 : c.toNat < 65536
      · have e1 : ¬ (224 + c.toNat / 4096 < 128) := by omega
        have e2 : ¬ (192 ≤ 224 + c.toNat / 4096 ∧ 224 + c.toNat / 4096 < 224) := by omega
        have e3 : 224 ≤ 224 + c.toNat / 4096 ∧ 224 + c.toNat / 4096 < 240 := by omega
        have e4 : 128 ≤ 128 + c.toNat / 64 % 64 ∧ 128 + c.toNat / 64 % 64 < 192 := by omega
        have e5 : 128 ≤ 128 + c.toNat % 64 ∧ 128 + c.toNat % 64 < 192 := by omega
        simp only [if_neg h1, if_neg h2, if_pos h3, utf8DecodeChunk, utf8Step, u8Init,
          if_neg e1, if_neg e2, if_pos e3, if_pos e4, if_pos e5]
        have e6 : (c.toNat / 4096 * 64 + c.toNat / 64 % 64) * 64 + c.toNat % 64 =
            c.toNat := by omega
        simp
        rw [e6, Char.ofNat_toNat]
      · have e1 : ¬ (240 + c.toNat / 262144 < 128) := by omega
        have e2 : ¬ (192 ≤ 240 + c.toNat / 262144 ∧ 240 + c.toNat / 262144 < 224) := by omega
        have e3 : ¬ (224 ≤ 240 + c.toNat / 262144 ∧ 240 + c.toNat / 262144 < 240) := by omega
        have e4 : 240 ≤ 240 + c.toNat / 262144 ∧ 240 + c.toNat / 262144 < 248 := by omega
        have e5 : 128 ≤ 128 + c.toNat / 4096 % 64 ∧ 128 + c.toNat / 4096 % 64 < 192 := by omega
        have e6 : 128 ≤ 128 + c.toNat / 64 % 64 ∧ 128 + c.toNat / 64 % 64 < 192 := by omega
        have e7 : 128 ≤ 128 + c.toNat % 64 ∧ 128 + c.toNat % 64 < 192 := by omega
        simp only [if_neg h1, if_neg h2, if_neg h3, utf8DecodeChunk, utf8Step, u8Init,
          if_neg e1, if_neg e2, if_neg e3, if_pos e4, if_pos e5, if_pos e6, if_pos e7]
        have e8 : ((c.toNat / 262144 * 64 + c.toNat / 4096 % 64) * 64 +
            c.toNat / 64 % 64) * 64 + c.toNat % 64 = c.toNat := by omega
        simp
        rw [e8, Char.ofNat_toNat]

/-- Decoding the UTF-8 encoding of a string from the initial state emits
exactly that string and returns to the initial state. -/
theorem utf8Str_roundtrip (s : Str) :
    utf8DecodeChunk u8Init (utf8EncodeStr s) = (u8Init, s) := by
  induction s with
  | nil => rfl
  | cons c cs ih =>
    have : utf8EncodeStr (c :: cs) = utf8EncodeChar c ++ utf8EncodeStr cs := by
      simp [utf8EncodeStr]
    rw [this, utf8DecodeChunk_append, utf8Char_roundtrip c]
    simp [ih]

/-- The byte-chunk loop equals the text-chunk loop run on the sequentially
decoded pieces. -/
theorem runByteChunks_eq (parse : Str → Option (Option Str)) :
    ∀ (bcs : List (List Nat)) (st : DecodeState) (u : U8),
    runByteChunks parse st u bcs = runChunks parse st (decodePieces u bcs) := by
  intro bcs
  induction bcs with
  | nil => intro st u; rfl
  | cons bc bcs ih =>
    intro st u
    by_cases h : st.streamDone
    · simp [runByteChunks, runChunks, decodePieces, h]
    · simp [runByteChunks, runChunks, decodePieces, h, ih]

/-- The concatenation of the sequentially decoded pieces is the decoding of
the concatenated bytes. -/
theorem decodePieces_flatten :
    ∀ (bcs : List (List Nat)) (u : U8),
    (decodePieces u bcs).flatten = (utf8DecodeChunk u bcs.flatten).2 := by
  intro bcs
  induction bcs with
  | nil => intro u; rfl
  | cons bc bcs ih =>
    intro u
    simp only [decodePieces, List.flatten_cons, List.flatten_cons, ih,
      utf8DecodeChunk_append]

/-- C1: for every well-formed upstream stream (delta and comment lines
followed by `data: [DONE]`) and every way of splitting its UTF-8 bytes into
chunks — including splits in the middle of a JSON object and in the middle
of a multi-byte UTF-8 character — the decode loop of `streamChat` produces
a final accumulated assistant text equal to the concatenation, in arrival
order, of all `choices[0].delta.content` values contained in the stream. -/
theorem c1_stream_reassembly (parse : Str → Option (Option Str))
    (msgs0 : List Msg) (pre : List Str) (bchunks : List (List Nat))
    (hnl : ∀ l ∈ pre, '\n' ∉ l)
    (hpre : ∀ l ∈ pre, classifyLine parse l ≠ .push ∧ classifyLine parse l ≠ .done)
    (hbytes : bchunks.flatten = utf8EncodeStr (streamText (pre ++ [doneLine]))) :
    (runByteChunks parse (initState msgs0) u8Init bchunks).assistantContent =
      deltasOf parse pre := by
  rw [runByteChunks_eq]
  have hflat : (decodePieces u8Init bchunks).flatten =
      streamText (pre ++ [doneLine]) := by
    rw [decodePieces_flatten, hbytes, utf8Str_roundtrip]
  exact (run_stream_done parse msgs0 pre [] _ hnl (by simp) hpre hflat).1

/-- Witness for C1: the single delta payload carrying `é` is split into two
byte chunks, the boundary falling both inside the JSON object and between
the two UTF-8 bytes of `é` (byte 40 of the stream); the loop reassembles it
and accumulates exactly `é`. -/
theorem c1_stream_reassembly_witness :
    (runByteChunks simpleParse (initState []) u8Init
      [(utf8EncodeStr (streamText [deltaLine (str "é"), doneLine])).take 40,
       (utf8EncodeStr (streamText [deltaLine (str "é"), doneLine])).drop 40]).assistantContent =
      str "é" := by
  have h := c1_stream_reassembly simpleParse [] [deltaLine (str "é")]
    [(utf8EncodeStr (streamText [deltaLine (str "é"), doneLine])).take 40,
     (utf8EncodeStr (streamText [deltaLine (str "é"), doneLine])).drop 40]
    (by decide) (by decide)
    (by simp)
  rw [h]
  decide

/-- C3: once the `data: [DONE]` line is reached, accumulation terminates:
whatever lines follow it (further delta lines included), in the same chunk
or in later chunks, no further delta is applied, and the final text is the
concatenation of the deltas strictly before the `[DONE]` line. -/
theorem c3_done_terminal (parse : Str → Option (Option Str)) (msgs0 : List Msg)
    (pre post : List Str) (chunks : List Str)
    (hnlpre : ∀ l ∈ pre, '\n' ∉ l) (hnlpost : ∀ l ∈ post, '\n' ∉ l)
    (hpre : ∀ l ∈ pre, classifyLine parse l ≠ .push ∧ classifyLine parse l ≠ .done)
    (hchunks : chunks.flatten = streamText (pre ++ doneLine :: post)) :
    (runChunks parse (initState msgs0) chunks).streamDone = true ∧
    (runChunks parse (initState msgs0) chunks).assistantContent =
      deltasOf parse pre := by
  obtain ⟨h1, h2⟩ := run_stream_done parse msgs0 pre post chunks hnlpre hnlpost hpre hchunks
  exact ⟨h2, h1⟩

/-- Witness for C3: a stream whose `[DONE]` line is followed by a further
delta line `B`, delivered across two chunks with the boundary after
`[DONE]`; the final text is `A` alone and the done flag is set. -/
theorem c3_done_terminal_witness :
    (runChunks simpleParse (initState [])
      [deltaLine (str "A") ++ '\n' :: doneLine ++ ['\n'],
       deltaLine (str "B") ++ ['\n']]).streamDone = true ∧
    (runChunks simpleParse (initState [])
      [deltaLine (str "A") ++ '\n' :: doneLine ++ ['\n'],
       deltaLine (str "B") ++ ['\n']]).assistantContent = str "A" := by
  have h := c3_done_terminal simpleParse [] [deltaLine (str "A")]
    [deltaLine (str "B")]
    [deltaLine (str "A") ++ '\n' :: doneLine ++ ['\n'],
     deltaLine (str "B") ++ ['\n']]
    (by decide) (by decide) (by decide) (by decide)
  refine ⟨h.1, ?_⟩
  rw [h.2]
  decide

/-- Counterexample to C2 as stated: in the stream
`data: not-json` / `data: {"choices":[{"delta":{"content":"A"}}]}` /
`data: [DONE]`, delivered in a single chunk, the valid delta `A` arriving
after the malformed line is never applied — the final accumulated text is
empty, not the concatenation `A` of the valid deltas. -/
theorem c2_counterexample :
    (runChunks simpleParse (initState [])
      [str "data: not-json\n" ++ deltaLine (str "A") ++ '\n' :: doneLine ++ ['\n']]).assistantContent
      = [] ∧
    (runChunks simpleParse (initState [])
      [str "data: not-json\n" ++ deltaLine (str "A") ++ '\n' :: doneLine ++ ['\n']]).assistantContent
      ≠ deltasOf simpleParse [str "data: not-json", deltaLine (str "A")] := by
  decide

/-- C2 (amended): a complete `data: ` line whose payload never parses (such
as `data: not-json`) does not throw and does not corrupt the deltas that
arrived before it, but it is pushed back and retried after every later
chunk rather than skipped: no delta positioned after it is ever applied,
the final accumulated text is the concatenation of the valid deltas
preceding the malformed line, and the stream is never marked done. -/
theorem c2_malformed_line_blocks (parse : Str → Option (Option Str))
    (msgs0 : List Msg) (pre post : List Str) (bad : Str) (chunks : List Str)
    (hnlpre : ∀ l ∈ pre, '\n' ∉ l) (hnlbad : '\n' ∉ bad)
    (hnlpost : ∀ l ∈ post, '\n' ∉ l)
    (hpre : ∀ l ∈ pre, classifyLine parse l ≠ .push ∧ classifyLine parse l ≠ .done)
    (hbad : classifyLine parse bad = .push) (hstrip : stripCR bad = bad)
    (hchunks : chunks.flatten = streamText (pre ++ bad :: post)) :
    (runChunks parse (initState msgs0) chunks).assistantContent =
      deltasOf parse pre ∧
    (runChunks parse (initState msgs0) chunks).streamDone = false := by
  have hnl : ∀ l ∈ pre ++ bad :: post, '\n' ∉ l := by
    intro l hm
    rcases List.mem_append.mp hm with h | h
    · exact hnlpre l h
    · rcases List.mem_cons.mp h with h | h
      · subst h; exact hnlbad
      · exact hnlpost l h
  have hsplit : splitLines (([] : Str) ++ chunks.flatten) = (pre ++ bad :: post, []) := by
    rw [List.nil_append, hchunks]
    exact splitLines_streamText hnl
  obtain ⟨hstop, hacc⟩ := procLines_no_stop parse ⟨[], msgs0⟩ pre hpre
  rcases hPpre : procLines parse ⟨[], msgs0⟩ pre with ⟨a₁, s₁⟩
  rw [hPpre] at hstop hacc
  simp only at hstop hacc
  subst hstop
  have hP : procLines parse ⟨[], msgs0⟩ (pre ++ bad :: post) =
      (a₁, some (.push bad, post)) := by
    rw [procLines_append, hPpre]
    simp only [procLines, hbad]
  have hspec := runChunks_spec parse chunks ⟨[], msgs0⟩ [] (by simp)
    (by intro bad' rest h
        rw [hsplit] at h
        simp only at h
        rw [hP] at h
        simp only [Option.some.injEq, Prod.mk.injEq, StopK.push.injEq] at h
        exact h.1 ▸ hstrip)
  rw [hsplit] at hspec
  simp only [hP] at hspec
  obtain ⟨ha, hm, hd⟩ := hspec
  rw [initState]
  refine ⟨?_, hd⟩
  rw [ha] at *
  simpa using hacc

/-- Witness for the amended C2: the stream `data: {...B...}` /
`data: not-json` / `data: {...A...}` / `data: [DONE]`, delivered in two
chunks: the delta before the malformed line survives, nothing after it is
applied, and the stream never terminates. -/
theorem c2_malformed_line_blocks_witness :
    (runChunks simpleParse (initState [])
      [deltaLine (str "B") ++ '\n' :: str "data: not-",
       str "json\n" ++ deltaLine (str "A") ++ '\n' :: doneLine ++ ['\n']]).assistantContent
      = str "B" ∧
    (runChunks simpleParse (initState [])
      [deltaLine (str "B") ++ '\n' :: str "data: not-",
       str "json\n" ++ deltaLine (str "A") ++ '\n' :: doneLine ++ ['\n']]).streamDone
      = false := by
  have h := c2_malformed_line_blocks simpleParse [] [deltaLine (str "B")]
    [deltaLine (str "A"), doneLine] (str "data: not-json")
    [deltaLine (str "B") ++ '\n' :: str "data: not-",
     str "json\n" ++ deltaLine (str "A") ++ '\n' :: doneLine ++ ['\n']]
    (by decide) (by decide) (by decide) (by decide) (by decide) (by decide)
    (by decide)
  refine ⟨?_, h.2⟩
  rw [h.1]
  decide

/-! ## The messages-state frame invariant -/

/-- A classified content delta is never empty (`if (content)` at
ChatInterface.tsx line 184 filters falsy contents). -/
theorem classify_delta_ne_nil {parse : Str → Option (Option Str)} {l c : Str}
    (h : classifyLine parse l = .delta c) : c ≠ [] := by
  simp only [classifyLine] at h
  split at h
  · simp at h
  · split at h
    · simp at h
    · split at h
      · simp at h
      · rcases hp : parse (trimChars ((stripCR l).drop 6)) with _ | co
        · rw [hp] at h; simp at h
        · rw [hp] at h
          cases co with
          | none => simp at h
          | some c' =>
            simp only at h
            split at h
            · simp at h
            · simp only [LineClass.delta.injEq] at h
              subst h
              assumption

/-- Applying a non-empty delta preserves the frame invariant: the update
appends the first assistant message or replaces only the trailing one. -/
theorem MsgInv_applyDelta {msgs0 : List Msg} {st : DecodeState} {c : Str}
    (hlast : ∀ m, msgs0.getLast? = some m → m.role ≠ Role.assistant)
    (h : MsgInv msgs0 st) (hc : c ≠ []) : MsgInv msgs0 (applyDelta st c) := by
  rcases h with ⟨hacc, hmsgs⟩ | ⟨hacc, hmsgs⟩
  · right
    refine ⟨by simp [applyDelta, hacc, hc], ?_⟩
    simp only [applyDelta, hacc, hmsgs, pushAssistant]
    cases hL : msgs0.getLast? with
    | none => simp
    | some m =>
      have := hlast m hL
      simp [this]
  · right
    refine ⟨by simp [applyDelta, hacc], ?_⟩
    simp only [applyDelta, hmsgs, pushAssistant, List.getLast?_concat]
    simp

/-- The draining loop preserves the frame invariant. -/
theorem MsgInv_drain (parse : Str → Option (Option Str)) {msgs0 : List Msg}
    (hlast : ∀ m, msgs0.getLast? = some m → m.role ≠ Role.assistant) :
    ∀ (fuel : Nat) (st : DecodeState), MsgInv msgs0 st →
    MsgInv msgs0 (drain parse fuel st) := by
  intro fuel
  induction fuel with
  | zero => intro st h; exact h
  | succ fuel ih =>
    intro st h
    rcases hsplit : lineSplit st.textBuffer with _ | ⟨line0, rest⟩
    · simpa [drain, hsplit] using h
    · cases hcl : classifyLine parse line0 with
      | skip =>
        simp only [drain, hsplit, hcl]
        apply ih
        rcases h with ⟨h1, h2⟩ | ⟨h1, h2⟩
        · exact Or.inl ⟨h1, h2⟩
        · exact Or.inr ⟨h1, h2⟩
      | delta c =>
        simp only [drain, hsplit, hcl]
        apply ih
        apply MsgInv_applyDelta hlast _ (classify_delta_ne_nil hcl)
        rcases h with ⟨h1, h2⟩ | ⟨h1, h2⟩
        · exact Or.inl ⟨h1, h2⟩
        · exact Or.inr ⟨h1, h2⟩
      | done =>
        simp only [drain, hsplit, hcl]
        rcases h with ⟨h1, h2⟩ | ⟨h1, h2⟩
        · exact Or.inl ⟨h1, h2⟩
        · exact Or.inr ⟨h1, h2⟩
      | push =>
        simp only [drain, hsplit, hcl]
        rcases h with ⟨h1, h2⟩ | ⟨h1, h2⟩
        · exact Or.inl ⟨h1, h2⟩
        · exact Or.inr ⟨h1, h2⟩

/-- The byte-chunk loop preserves the frame invariant. -/
theorem MsgInv_runByteChunks (parse : Str → Option (Option Str)) {msgs0 : List Msg}
    (hlast : ∀ m, msgs0.getLast? = some m → m.role ≠ Role.assistant) :
    ∀ (bcs : List (List Nat)) (st : DecodeState) (u : U8), MsgInv msgs0 st →
    MsgInv msgs0 (runByteChunks parse st u bcs) := by
  intro bcs
  induction bcs with
  | nil => intro st u h; exact h
  | cons bc bcs ih =>
    intro st u h
    by_cases hd : st.streamDone
    · simpa [runByteChunks, hd] using h
    · simp only [runByteChunks, hd, if_false, Bool.false_eq_true]
      apply ih
      exact MsgInv_drain parse hlast _ _ h

/-- The witness assistant message appended by the relay. -/
theorem attachAudio_concat (msgs0 : List Msg) (m : Msg) (audio : Str)
    (hrole : m.role = Role.assistant) :
    attachAudio (msgs0 ++ [m]) audio =
      msgs0 ++ [{ m with audioContent := some audio }] := by
  simp [attachAudio, List.getLast?_concat, hrole]

/-- C9: over a whole `streamChat` call, the `messages` state is only ever
extended by at most one trailing assistant message — no earlier message is
modified — and when the relay fails after deltas were accumulated (a reader
failure mid-stream), the partially accumulated assistant message is left in
place, not rolled back. -/
theorem c9_frame_retention (parse : Str → Option (Option Str)) (msgs0 : List Msg)
    (inp : RelayIn)
    (hlast : ∀ m, msgs0.getLast? = some m → m.role ≠ Role.assistant) :
    ((streamChat parse msgs0 inp).msgs = msgs0 ∨
      ∃ a : Msg, a.role = Role.assistant ∧
        (streamChat parse msgs0 inp).msgs = msgs0 ++ [a]) ∧
    (inp.hasSession = true → inp.fetchOk = true → respOk inp.status = true →
      inp.hasBody = true → inp.readFails = true →
      (runByteChunks parse (initState msgs0) u8Init inp.byteChunks).assistantContent ≠ [] →
      (streamChat parse msgs0 inp).msgs =
        msgs0 ++ [Msg.mk Role.assistant
          (runByteChunks parse (initState msgs0) u8Init
            inp.byteChunks).assistantContent [] none]) := by
  have hinv : MsgInv msgs0 (runByteChunks parse (initState msgs0) u8Init inp.byteChunks) :=
    MsgInv_runByteChunks parse hlast inp.byteChunks (initState msgs0) u8Init
      (Or.inl ⟨rfl, rfl⟩)
  constructor
  · cases hs : inp.hasSession with
    | false => exact Or.inl (by simp [streamChat, hs])
    | true =>
    cases hf : inp.fetchOk with
    | false => exact Or.inl (by simp [streamChat, hs, hf])
    | true =>
    cases hok : respOk inp.status with
    | false => exact Or.inl (by simp [streamChat, hs, hf, hok])
    | true =>
    cases hb : inp.hasBody with
    | false => exact Or.inl (by simp [streamChat, hs, hf, hok, hb])
    | true =>
    rcases hinv with ⟨ha, hm⟩ | ⟨ha, hm⟩
    · refine Or.inl ?_
      cases hr : inp.readFails with
      | true => simp [streamChat, hs, hf, hok, hb, hr, hm]
      | false => simp [streamChat, hs, hf, hok, hb, hr, hm, ha]
    · cases hr : inp.readFails with
      | true =>
        refine Or.inr ⟨Msg.mk Role.assistant
          (runByteChunks parse (initState msgs0) u8Init
            inp.byteChunks).assistantContent [] none, rfl, ?_⟩
        simp only [streamChat, hs, hf, hok, hb, hr, Bool.not_true, Bool.or_self,
          Bool.false_eq_true, if_false, if_true]
        simpa using hm
      | false =>
        cases hv : inp.voiceEnabled with
        | false =>
          refine Or.inr ⟨Msg.mk Role.assistant
            (runByteChunks parse (initState msgs0) u8Init
              inp.byteChunks).assistantContent [] none, rfl, ?_⟩
          simp only [streamChat, hs, hf, hok, hb, hr, hv]
          simpa using hm
        | true =>
          rcases htts : inp.ttsAudio with _ | audio
          · refine Or.inr ⟨Msg.mk Role.assistant
              (runByteChunks parse (initState msgs0) u8Init
                inp.byteChunks).assistantContent [] none, rfl, ?_⟩
            simp only [streamChat, hs, hf, hok, hb, hr, hv, htts]
            simpa [ha] using hm
          · by_cases hau : audio = []
            · refine Or.inr ⟨Msg.mk Role.assistant
                (runByteChunks parse (initState msgs0) u8Init
                  inp.byteChunks).assistantContent [] none, rfl, ?_⟩
              simp only [streamChat, hs, hf, hok, hb, hr, hv, htts]
              simpa [ha, hau] using hm
            · refine Or.inr ⟨Msg.mk Role.assistant
                (runByteChunks parse (initState msgs0) u8Init
                  inp.byteChunks).assistantContent [] (some audio), rfl, ?_⟩
              simp only [streamChat, hs, hf, hok, hb, hr, hv, htts]
              have hrw := attachAudio_concat msgs0 (Msg.mk Role.assistant
                (runByteChunks parse (initState msgs0) u8Init
                  inp.byteChunks).assistantContent [] none) audio rfl
              simp [ha, hau, hm, hrw]
  · intro h1 h2 h3 h4 h5 hne
    rcases hinv with ⟨ha, hm⟩ | ⟨ha, hm⟩
    · exact absurd ha hne
    · simp only [streamChat, h1, h2, h3, h4, h5, Bool.not_true, Bool.or_self,
        Bool.false_eq_true, if_false, if_true]
      simpa using hm

/-- Witness for C9: a reader failure after the delta `A` was accumulated
leaves the conversation as the original user message plus the partial
assistant message. -/
theorem c9_frame_retention_witness :
    (streamChat simpleParse [Msg.mk Role.user (str "q") [] none]
      (RelayIn.mk true true 200 true
        [utf8EncodeStr (deltaLine (str "A") ++ ['\n'])] true false none)).msgs =
      [Msg.mk Role.user (str "q") [] none] ++ [Msg.mk Role.assistant
        (runByteChunks simpleParse
          (initState [Msg.mk Role.user (str "q") [] none]) u8Init
          [utf8EncodeStr (deltaLine (str "A") ++ ['\n'])]).assistantContent
        [] none] :=
  (c9_frame_retention simpleParse [Msg.mk Role.user (str "q") [] none]
    (RelayIn.mk true true 200 true
      [utf8EncodeStr (deltaLine (str "A") ++ ['\n'])] true false none)
    (by intro m hm; simp at hm; subst hm; decide)).2
    rfl rfl (by decide) rfl rfl (by decide)

/-- C4: an HTTP 429 response makes the client report the rate-limit toast
and read no stream, and an HTTP 402 response makes it report the
payment-required toast and read no stream. -/
theorem c4_status_toasts (parse : Str → Option (Option Str)) (msgs0 : List Msg)
    (inp : RelayIn) (hs : inp.hasSession = true) (hf : inp.fetchOk = true) :
    (inp.status = 429 →
      Notif.rateLimited ∈ (streamChat parse msgs0 inp).notifs ∧
      (streamChat parse msgs0 inp).decoded = false) ∧
    (inp.status = 402 →
      Notif.paymentRequired ∈ (streamChat parse msgs0 inp).notifs ∧
      (streamChat parse msgs0 inp).decoded = false) := by
  constructor
  · intro h429
    simp [streamChat, hs, hf, h429, respOk]
  · intro h402
    simp [streamChat, hs, hf, h402, respOk]

/-- Witness for C4: concrete 429 and 402 responses. -/
theorem c4_status_toasts_witness :
    (Notif.rateLimited ∈ (streamChat simpleParse []
        (RelayIn.mk true true 429 true [] false false none)).notifs ∧
      (streamChat simpleParse []
        (RelayIn.mk true true 429 true [] false false none)).decoded = false) ∧
    (Notif.paymentRequired ∈ (streamChat simpleParse []
        (RelayIn.mk true true 402 true [] false false none)).notifs ∧
      (streamChat simpleParse []
        (RelayIn.mk true true 402 true [] false false none)).decoded = false) :=
  ⟨(c4_status_toasts simpleParse []
      (RelayIn.mk true true 429 true [] false false none) rfl rfl).1 rfl,
   (c4_status_toasts simpleParse []
      (RelayIn.mk true true 402 true [] false false none) rfl rfl).2 rfl⟩

/-- Counterexample to C5 as stated: a 429 response produces two user-visible
notifications, the specific rate-limit toast and then — because the code
throws after toasting and the `catch` block toasts again — the generic
error toast; not exactly one. -/
theorem c5_counterexample :
    (streamChat simpleParse []
      (RelayIn.mk true true 429 true [] false false none)).notifs =
      [Notif.rateLimited, Notif.genericError] ∧
    (streamChat simpleParse []
      (RelayIn.mk true true 429 true [] false false none)).notifs.length ≠ 1 := by
  decide

/-- C5 (amended): every failed relay attempt produces at least one — never
zero — user-visible notification, so failures are never silent; but
rate-limited and payment-required failures produce exactly two (the
specific toast, then the generic catch-block toast), and every other
failure exactly one, so "exactly one" does not hold in general. -/
theorem c5_amended_notifications (parse : Str → Option (Option Str))
    (msgs0 : List Msg) (inp : RelayIn) (h : RelayFailed inp) :
    1 ≤ (streamChat parse msgs0 inp).notifs.length ∧
    (streamChat parse msgs0 inp).notifs.length ≤ 2 ∧
    ((streamChat parse msgs0 inp).notifs.length = 2 ↔
      (inp.hasSession = true ∧ inp.fetchOk = true ∧
        (respOk inp.status = false ∨ inp.hasBody = false) ∧
        (inp.status = 429 ∨ inp.status = 402))) := by
  cases hs : inp.hasSession with
  | false => simp [streamChat, hs]
  | true =>
  cases hf : inp.fetchOk with
  | false => simp [streamChat, hs, hf]
  | true =>
  cases hok : respOk inp.status with
  | false =>
    by_cases h429 : inp.status = 429
    · simp [streamChat, hs, hf, hok, h429, respOk]
    · by_cases h402 : inp.status = 402
      · simp [streamChat, hs, hf, hok, h429, h402, respOk]
      · simp [streamChat, hs, hf, hok, h429, h402]
  | true =>
    have h429 : ¬ inp.status = 429 := fun he => by simp [he, respOk] at hok
    have h402 : ¬ inp.status = 402 := fun he => by simp [he, respOk] at hok
    cases hb : inp.hasBody with
    | false => simp [streamChat, hs, hf, hok, hb, h429, h402]
    | true =>
      cases hr : inp.readFails with
      | true => simp [streamChat, hs, hf, hok, hb, hr, h429, h402]
      | false =>
        exfalso
        rcases h with h | h | h | h | h <;> simp_all

/-- Witness for the amended C5: the 429 failure shows the two-notification
case and a network failure shows the single-notification case. -/
theorem c5_amended_notifications_witness :
    (1 ≤ (streamChat simpleParse []
        (RelayIn.mk true true 429 true [] false false none)).notifs.length ∧
      (streamChat simpleParse []
        (RelayIn.mk true true 429 true [] false false none)).notifs.length ≤ 2) ∧
    (1 ≤ (streamChat simpleParse []
        (RelayIn.mk true false 200 true [] false false none)).notifs.length ∧
      (streamChat simpleParse []
        (RelayIn.mk true false 200 true [] false false none)).notifs.length ≤ 2) := by
  have h1 := c5_amended_notifications simpleParse []
    (RelayIn.mk true true 429 true [] false false none)
    (Or.inr (Or.inr (Or.inl (by decide))))
  have h2 := c5_amended_notifications simpleParse []
    (RelayIn.mk true false 200 true [] false false none)
    (Or.inr (Or.inl rfl))
  exact ⟨⟨h1.1, h1.2.1⟩, ⟨h2.1, h2.2.1⟩⟩

/-! ## Lemmas for the serialized request body -/

/-- Unfolding `intercalate` over at least two elements. -/
theorem intercalate_cons_cons {α : Type} (sep a b : List α) (L : List (List α)) :
    List.intercalate sep (a :: b :: L) =
      a ++ sep ++ List.intercalate sep (b :: L) := by
  simp [List.intercalate, List.intersperse]

/-- `intercalate` of a single element. -/
theorem intercalate_singleton {α : Type} (sep a : List α) :
    List.intercalate sep [a] = a := by
  simp [List.intercalate, List.intersperse]

/-- Every member of an intercalated list appears as a contiguous segment of
the result. -/
theorem intercalate_mem_split {α : Type} (sep : List α) :
    ∀ (L : List (List α)) (b : List α), b ∈ L →
    ∃ x y, List.intercalate sep L = x ++ (b ++ y) := by
  intro L
  induction L with
  | nil => simp
  | cons a L ih =>
    intro b hb
    rcases List.mem_cons.mp hb with h | h
    · subst h
      cases L with
      | nil => exact ⟨[], [], by simp [intercalate_singleton]⟩
      | cons c L' =>
        exact ⟨[], sep ++ List.intercalate sep (c :: L'),
          by rw [intercalate_cons_cons]; simp⟩
    · obtain ⟨x, y, hx⟩ := ih b h
      cases L with
      | nil => simp at h
      | cons c L' =>
        exact ⟨a ++ sep ++ x, y,
          by rw [intercalate_cons_cons, hx]; simp⟩

/-- Each file's context block carries the file's name as a contiguous
segment. -/
theorem fileBlock_name_split (f : UFile) :
    ∃ x y, fileBlock f = x ++ (f.name ++ y) := by
  cases ha : f.analysis with
  | none => exact ⟨str "[Attached file: ", str "]", by simp [fileBlock, ha]⟩
  | some a =>
    refine ⟨str "[Document: ",
      str "]\nTopic: " ++ a.topic ++ str "\nSubtopics: " ++
        List.intercalate (str ", ") a.subtopics ++ str "\nSummary: " ++ a.summary,
      ?_⟩
    simp [fileBlock, ha]

/-- Counterexample to C8 as stated: for a user message `hi` with an attached
file `a.txt`, the message text serialized into the request body is exactly
`hi` — the attachment name is not prepended to it (it goes into the separate
`systemContext` field instead): no decomposition of the serialized text
contains `a.txt`. -/
theorem c8_counterexample :
    (buildBody [] (Msg.mk Role.user (str "hi")
        [UFile.mk (str "a.txt") none] none) none).messages =
      [(Role.user, str "hi")] ∧
    ∀ x y : Str, str "hi" ≠ x ++ (str "a.txt" ++ y) := by
  constructor
  · decide
  · intro x y h
    have hlen := congrArg List.length h
    simp [str] at hlen
    omega

/-- C8 (amended): the serialized request body carries the full prior
history plus the new message, whose text is exactly the user's content; the
attachments' names are serialized not into the message text but into the
separate `systemContext` field of the body, each name appearing as a
contiguous segment of that field (attachments are not uploaded as binary in
this call). -/
theorem c8_amended_names_in_systemContext (msgs : List Msg) (userMessage : Msg)
    (pdf : Option Str) :
    (buildBody msgs userMessage pdf).messages =
      msgs.map (fun m => (m.role, m.content)) ++
        [(userMessage.role, userMessage.content)] ∧
    ∀ f ∈ userMessage.files, ∃ x y,
      (buildBody msgs userMessage pdf).systemContext = x ++ (f.name ++ y) := by
  constructor
  · rfl
  · intro f hf
    have hlen : userMessage.files.length > 0 :=
      List.length_pos.mpr (List.ne_nil_of_mem hf)
    obtain ⟨A, B, hAB⟩ := fileBlock_name_split f
    have hmem : fileBlock f ∈ userMessage.files.map fileBlock :=
      List.mem_map_of_mem _ hf
    obtain ⟨x, y, hxy⟩ := intercalate_mem_split (str "\n\n") _ _ hmem
    cases pdf with
    | none =>
      refine ⟨str "The user has uploaded the following document(s):\n" ++ x ++ A,
        B ++ y ++ str "\n\nProvide advanced insights based on this context.", ?_⟩
      simp [buildBody, hlen, hxy, hAB, List.append_assoc]
    | some p =>
      refine ⟨p ++ str "\n\n" ++
          (str "The user has uploaded the following document(s):\n" ++ x ++ A),
        B ++ y ++ str "\n\nProvide advanced insights based on this context.", ?_⟩
      simp [buildBody, hlen, hxy, hAB, List.append_assoc]

/-- Witness for the amended C8: the concrete body of `hi` with attachment
`a.txt` keeps the message text `hi` and carries `a.txt` inside
`systemContext`. -/
theorem c8_amended_names_witness :
    (buildBody [] (Msg.mk Role.user (str "hi")
        [UFile.mk (str "a.txt") none] none) none).messages =
      [(Role.user, str "hi")] ∧
    ∃ x y, (buildBody [] (Msg.mk Role.user (str "hi")
        [UFile.mk (str "a.txt") none] none) none).systemContext =
      x ++ (str "a.txt" ++ y) := by
  have h := c8_amended_names_in_systemContext []
    (Msg.mk Role.user (str "hi") [UFile.mk (str "a.txt") none] none) none
  exact ⟨by simpa using h.1,
    h.2 (UFile.mk (str "a.txt") none) (by decide)⟩

/-! ## Lemmas for the proxy handler -/

/-- If some entry of the messages array violates the per-message checks,
the validation loop reports an error. -/
theorem validateMsgs_some_of_bad :
    ∀ (ms : List RawMsg), (∃ m ∈ ms, (badRole m || badContent m || tooLong m) = true) →
    validateMsgs ms ≠ none := by
  intro ms
  induction ms with
  | nil => rintro ⟨m, hm, -⟩; simp at hm
  | cons m ms ih =>
    rintro ⟨m', hm', hbad⟩
    by_cases h1 : badRole m
    · simp [validateMsgs, h1]
    · by_cases h2 : badContent m
      · simp [validateMsgs, h1, h2]
      · by_cases h3 : tooLong m
        · simp [validateMsgs, h1, h2, h3]
        · simp only [validateMsgs, h1, h2, h3, if_false, Bool.false_eq_true]
          apply ih
          rcases List.mem_cons.mp hm' with h | h
          · subst h
            simp [h1, h2, h3] at hbad
          · exact ⟨m', h, hbad⟩

/-- C6: an authenticated request whose `messages` payload is missing or not
an array, empty, longer than 50 entries, or contains an entry with an
invalid role, a missing or non-string content, or a content longer than
10000 characters, is rejected by the proxy with status 400 and a JSON error
message. -/
theorem c6_validation_400 (req : ProxyReq) (key : Bool) (up : Upstream)
    (hauth : req.authed = true) (hbody : req.bodyOk = true)
    (hviol : req.messages = none ∨
      ∃ ms, req.messages = some ms ∧
        (ms.length = 0 ∨ ms.length > 50 ∨
          ∃ m ∈ ms, (badRole m || badContent m || tooLong m) = true)) :
    (handleChat req key up).status = 400 ∧
    (handleChat req key up).errorMsg ≠ none := by
  rcases hviol with h | ⟨ms, hm, hcase⟩
  · simp [handleChat, hauth, hbody, h, jsonError]
  · by_cases h0 : ms.length = 0
    · simp [handleChat, hauth, hbody, hm, h0, jsonError]
    · by_cases h50 : ms.length > 50
      · simp [handleChat, hauth, hbody, hm, h0, h50, jsonError]
      · rcases hcase with h | h | h
        · exact absurd h h0
        · exact absurd h h50
        · have hv := validateMsgs_some_of_bad ms h
          rcases hval : validateMsgs ms with _ | e
          · exact absurd hval hv
          · simp [handleChat, hauth, hbody, hm, h0, h50, hval, jsonError]

/-- Witness for C6: an authenticated request with 51 valid messages yields
the 400 array-length error, and one whose single message has content of
length 10001 yields the 400 content-length error. -/
theorem c6_validation_400_witness :
    ((handleChat (ProxyReq.mk true true (some (List.replicate 51
          (RawMsg.mk (some (.jstr (str "user"))) (some (.jstr (str "hi")))))))
        true (Upstream.mk 200 [])).status = 400 ∧
      (handleChat (ProxyReq.mk true true (some (List.replicate 51
          (RawMsg.mk (some (.jstr (str "user"))) (some (.jstr (str "hi")))))))
        true (Upstream.mk 200 [])).errorMsg ≠ none) ∧
    (handleChat (ProxyReq.mk true true (some (List.replicate 51
          (RawMsg.mk (some (.jstr (str "user"))) (some (.jstr (str "hi")))))))
        true (Upstream.mk 200 [])).errorMsg = some errTooMany ∧
    ((handleChat (ProxyReq.mk true true (some
          [RawMsg.mk (some (.jstr (str "user")))
            (some (.jstr (List.replicate 10001 'a')))]))
        true (Upstream.mk 200 [])).status = 400 ∧
      (handleChat (ProxyReq.mk true true (some
          [RawMsg.mk (some (.jstr (str "user")))
            (some (.jstr (List.replicate 10001 'a')))]))
        true (Upstream.mk 200 [])).errorMsg ≠ none) ∧
    (handleChat (ProxyReq.mk true true (some
          [RawMsg.mk (some (.jstr (str "user")))
            (some (.jstr (List.replicate 10001 'a')))]))
        true (Upstream.mk 200 [])).errorMsg = some errLong := by
  have hl : (List.replicate 10001 'a').length = 10001 := by
    rw [List.length_replicate]
  generalize hgen : List.replicate 10001 'a' = s
  rw [hgen] at hl
  have hne : s ≠ [] := by
    intro h
    rw [h] at hl
    simp at hl
  have hbr : badRole (RawMsg.mk (some (.jstr (str "user")))
      (some (.jstr s))) = false := by
    simp [badRole, fieldTruthy, truthy]
    decide
  have hbc : badContent (RawMsg.mk (some (.jstr (str "user")))
      (some (.jstr s))) = false := by
    simp [badContent, fieldTruthy, truthy, hne]
  have htl : tooLong (RawMsg.mk (some (.jstr (str "user")))
      (some (.jstr s))) = true := by
    simp [tooLong, hl]
  have hval : validateMsgs [RawMsg.mk (some (.jstr (str "user")))
      (some (.jstr s))] = some errLong := by
    simp [validateMsgs, hbr, hbc, htl]
  refine ⟨?_, ?_, ?_, ?_⟩
  · exact c6_validation_400 _ true (Upstream.mk 200 []) rfl rfl
      (Or.inr ⟨_, rfl, Or.inr (Or.inl (by decide))⟩)
  · decide
  · exact c6_validation_400 _ true (Upstream.mk 200 []) rfl rfl
      (Or.inr ⟨_, rfl, Or.inr (Or.inr ⟨_, List.mem_cons_self _ _, by simp [htl]⟩)⟩)
  · simp [handleChat, hval, jsonError]

/-- C7: for an authenticated, valid request, the proxy maps an upstream 429
to 429 and an upstream 402 to 402, maps any other upstream failure to 500 —
each with a JSON error body — and on upstream success returns status 200
with the upstream body piped through unmodified under content type
`text/event-stream`. -/
theorem c7_upstream_mapping (req : ProxyReq) (key : Bool) (up : Upstream)
    (hauth : req.authed = true) (hbody : req.bodyOk = true) (ms : List RawMsg)
    (hm : req.messages = some ms) (h0 : ms.length ≠ 0) (h50 : ¬ ms.length > 50)
    (hval : validateMsgs ms = none) (hkey : key = true) :
    (up.status = 429 →
      (handleChat req key up).status = 429 ∧
      (handleChat req key up).errorMsg = some errRate) ∧
    (up.status = 402 →
      (handleChat req key up).status = 402 ∧
      (handleChat req key up).errorMsg = some errPayment) ∧
    (respOk up.status = false → up.status ≠ 429 → up.status ≠ 402 →
      (handleChat req key up).status = 500 ∧
      (handleChat req key up).errorMsg = some errGateway) ∧
    (respOk up.status = true →
      (handleChat req key up).status = 200 ∧
      (handleChat req key up).errorMsg = none ∧
      (handleChat req key up).streamBody = some up.body ∧
      (handleChat req key up).contentType = str "text/event-stream" ∧
      (handleChat req key up).calledUpstream = true) := by
  refine ⟨?_, ?_, ?_, ?_⟩
  · intro h429
    simp [handleChat, hauth, hbody, hm, h0, h50, hval, hkey, h429, respOk, jsonError]
  · intro h402
    simp [handleChat, hauth, hbody, hm, h0, h50, hval, hkey, h402, respOk, jsonError]
  · intro hok h429 h402
    simp [handleChat, hauth, hbody, hm, h0, h50, hval, hkey, hok, h429, h402, jsonError]
  · intro hok
    simp [handleChat, hauth, hbody, hm, h0, h50, hval, hkey, hok]

/-- Witness for C7: a valid single-message request relayed against concrete
upstream responses with statuses 429, 402, 500 and 200. -/
theorem c7_upstream_mapping_witness :
    ((handleChat (ProxyReq.mk true true (some [RawMsg.mk
          (some (.jstr (str "user"))) (some (.jstr (str "hi")))]))
        true (Upstream.mk 429 [])).status = 429 ∧
      (handleChat (ProxyReq.mk true true (some [RawMsg.mk
          (some (.jstr (str "user"))) (some (.jstr (str "hi")))]))
        true (Upstream.mk 429 [])).errorMsg = some errRate) ∧
    ((handleChat (ProxyReq.mk true true (some [RawMsg.mk
          (some (.jstr (str "user"))) (some (.jstr (str "hi")))]))
        true (Upstream.mk 402 [])).status = 402 ∧
      (handleChat (ProxyReq.mk true true (some [RawMsg.mk
          (some (.jstr (str "user"))) (some (.jstr (str "hi")))]))
        true (Upstream.mk 402 [])).errorMsg = some errPayment) ∧
    ((handleChat (ProxyReq.mk true true (some [RawMsg.mk
          (some (.jstr (str "user"))) (some (.jstr (str "hi")))]))
        true (Upstream.mk 503 [])).status = 500 ∧
      (handleChat (ProxyReq.mk true true (some [RawMsg.mk
          (some (.jstr (str "user"))) (some (.jstr (str "hi")))]))
        true (Upstream.mk 503 [])).errorMsg = some errGateway) ∧
    ((handleChat (ProxyReq.mk true true (some [RawMsg.mk
          (some (.jstr (str "user"))) (some (.jstr (str "hi")))]))
        true (Upstream.mk 200 [[72, 105]])).status = 200 ∧
      (handleChat (ProxyReq.mk true true (some [RawMsg.mk
          (some (.jstr (str "user"))) (some (.jstr (str "hi")))]))
        true (Upstream.mk 200 [[72, 105]])).streamBody = some [[72, 105]] ∧
      (handleChat (ProxyReq.mk true true (some [RawMsg.mk
          (some (.jstr (str "user"))) (some (.jstr (str "hi")))]))
        true (Upstream.mk 200 [[72, 105]])).contentType = str "text/event-stream") := by
  refine ⟨?_, ?_, ?_, ?_⟩
  · exact (c7_upstream_mapping (ProxyReq.mk true true (some [RawMsg.mk
      (some (.jstr (str "user"))) (some (.jstr (str "hi")))])) true (Upstream.mk 429 []) rfl rfl
      [RawMsg.mk (some (.jstr (str "user"))) (some (.jstr (str "hi")))] rfl
      (by decide) (by decide) (by decide) rfl).1 rfl
  · exact (c7_upstream_mapping (ProxyReq.mk true true (some [RawMsg.mk
      (some (.jstr (str "user"))) (some (.jstr (str "hi")))])) true (Upstream.mk 402 []) rfl rfl
      [RawMsg.mk (some (.jstr (str "user"))) (some (.jstr (str "hi")))] rfl
      (by decide) (by decide) (by decide) rfl).2.1 rfl
  · exact (c7_upstream_mapping (ProxyReq.mk true true (some [RawMsg.mk
      (some (.jstr (str "user"))) (some (.jstr (str "hi")))])) true (Upstream.mk 503 []) rfl rfl
      [RawMsg.mk (some (.jstr (str "user"))) (some (.jstr (str "hi")))] rfl
      (by decide) (by decide) (by decide) rfl).2.2.1 (by decide) (by decide) (by decide)
  · have h := (c7_upstream_mapping (ProxyReq.mk true true (some [RawMsg.mk
      (some (.jstr (str "user"))) (some (.jstr (str "hi")))])) true (Upstream.mk 200 [[72, 105]]) rfl rfl
      [RawMsg.mk (some (.jstr (str "user"))) (some (.jstr (str "hi")))] rfl
      (by decide) (by decide) (by decide) rfl).2.2.2 (by decide)
    exact ⟨h.1, h.2.2.1, h.2.2.2.1⟩

/-- C10: a request without a valid authentication credential is rejected
with 401 before any payload validation and before any upstream call —
whatever the body contains, the response is 401 (never 400) and the
upstream provider is not contacted. -/
theorem c10_auth_first (req : ProxyReq) (key : Bool) (up : Upstream)
    (h : req.authed = false) :
    (handleChat req key up).status = 401 ∧
    (handleChat req key up).errorMsg = some errUnauthorized ∧
    (handleChat req key up).calledUpstream = false := by
  simp [handleChat, h, jsonError]

/-- Witness for C10: an unauthenticated request whose body is also invalid
(51 messages) still gets 401, not 400, and the upstream is not called. -/
theorem c10_auth_first_witness :
    (handleChat (ProxyReq.mk false true (some (List.replicate 51
        (RawMsg.mk (some (.jstr (str "user"))) (some (.jstr (str "hi")))))))
      true (Upstream.mk 200 [])).status = 401 ∧
    (handleChat (ProxyReq.mk false true (some (List.replicate 51
        (RawMsg.mk (some (.jstr (str "user"))) (some (.jstr (str "hi")))))))
      true (Upstream.mk 200 [])).errorMsg = some errUnauthorized ∧
    (handleChat (ProxyReq.mk false true (some (List.replicate 51
        (RawMsg.mk (some (.jstr (str "user"))) (some (.jstr (str "hi")))))))
      true (Upstream.mk 200 [])).calledUpstream = false :=
  c10_auth_first _ true (Upstream.mk 200 []) rfl
